import Mathlib

/-!
Verification development for the mini-tlp graph-document parser
(`src/lib.rs`).  The Rust code is a winnow combinator parser over `&str`;
we embed it shallowly: a parser is a function from the remaining input
(a list of characters) to either an error or a value paired with the
remaining input.  The winnow error type `ErrMode<ContextError>` is
modelled as the list of context labels accumulated on the way out
(the source never uses `cut_err`, so every failure is a backtracking
failure, and the primitive failures all carry an empty context).

Loops (`repeat`, `separated`, the recursive `cluster` grammar and
`take_escaped`) are written with an explicit fuel argument so that every
definition is structurally recursive and kernel-reducible.  The fuel is
taken as `input.length + 1` at each loop entry; winnow errors out of any
iteration that consumes no input (its "parsers must always consume"
guard, modelled faithfully below), so every iteration strictly consumes
and the fuel can never be exhausted on the actual grammars of the
source.
-/

/-- Error information of a failed parse: the winnow `ContextError`
context labels, innermost last.  All primitive failures carry `[]`. -/
abbrev PErr : Type := List String

/-- A parser in the shallow embedding: winnow `ModalResult` over a
cursor into the input. -/
abbrev P (α : Type) : Type := List Char → Except PErr (α × List Char)

def P.pure (a : α) : P α := fun s => .ok (a, s)

def P.bind (p : P α) (f : α → P β) : P β := fun s =>
  match p s with
  | .error e => .error e
  | .ok (v, t) => f v t

instance : Monad P where
  pure := P.pure
  bind := P.bind

/-- `Parser::map` (winnow). -/
def pmap (f : α → β) (p : P α) : P β := fun s =>
  match p s with
  | .error e => .error e
  | .ok (v, t) => .ok (f v, t)

/-- Ordered choice between two alternatives (winnow `alt`): the second
parser is tried from the same starting cursor when the first fails. -/
def alt2 (p q : P α) : P α := fun s =>
  match p s with
  | .ok r => .ok r
  | .error _ => q s

/-- winnow `opt`: absence rewinds the cursor and yields `none`. -/
def popt (p : P α) : P (Option α) := fun s =>
  match p s with
  | .ok (v, t) => .ok (some v, t)
  | .error _ => .ok (none, s)

/-- winnow `not`: negative lookahead, succeeds without consuming
exactly when `p` fails. -/
def pnot (p : P α) : P Unit := fun s =>
  match p s with
  | .ok _ => .error []
  | .error _ => .ok ((), s)

/-- winnow `terminated`. -/
def pterminated (p : P α) (q : P β) : P α := do
  let v ← p
  let _ ← q
  pure v

/-- winnow `delimited`. -/
def pdelimited (a : P α) (b : P β) (c : P γ) : P β := do
  let _ ← a
  let v ← b
  let _ ← c
  pure v

/-- `Parser::context` (winnow): pushes a `StrContext::Label` onto the
error on the way out. -/
def pcontext (lbl : String) (p : P α) : P α := fun s =>
  match p s with
  | .error e => .error (lbl :: e)
  | .ok r => .ok r

/-- A single literal character (winnow `char` / `'('.parse_next`). -/
def pchar (c : Char) : P Unit := fun s =>
  match s with
  | [] => .error []
  | d :: t => if d == c then .ok ((), t) else .error []

/-- A literal string (winnow tag matching through `Compare`). -/
def pstring : List Char → P Unit
  | [] => P.pure ()
  | c :: cs => P.bind (pchar c) (fun _ => pstring cs)

/-- ASCII decimal digit, as winnow `AsChar::is_dec_digit`. -/
def isDigitChar (c : Char) : Bool := 48 ≤ c.toNat && c.toNat ≤ 57

/-- Space or tab, the character class of winnow `space0`/`space1`. -/
def isSpaceTabChar (c : Char) : Bool := c.toNat == 32 || c.toNat == 9

/-- Space, tab, carriage return or newline, the character class of
winnow `multispace0`/`multispace1`. -/
def isMultispaceChar (c : Char) : Bool :=
  c.toNat == 32 || c.toNat == 9 || c.toNat == 10 || c.toNat == 13

/-- ASCII letter, the character class of winnow `alpha1`. -/
def isAlphaChar (c : Char) : Bool :=
  (65 ≤ c.toNat && c.toNat ≤ 90) || (97 ≤ c.toNat && c.toNat ≤ 122)

/-- Maximal run of characters satisfying `f`, possibly empty
(winnow `take_while(0.., f)` and friends). -/
def take_while0 (f : Char → Bool) : P (List Char) := fun s =>
  .ok (s.takeWhile f, s.dropWhile f)

/-- Maximal nonempty run of characters satisfying `f`
(winnow `take_while(1.., f)`). -/
def take_while1 (f : Char → Bool) : P (List Char) := fun s =>
  match s.takeWhile f with
  | [] => .error []
  | l => .ok (l, s.dropWhile f)

def space0 : P (List Char) := take_while0 isSpaceTabChar
def space1 : P (List Char) := take_while1 isSpaceTabChar
def multispace0 : P (List Char) := take_while0 isMultispaceChar
def multispace1 : P (List Char) := take_while1 isMultispaceChar
def alpha1 : P (List Char) := take_while1 isAlphaChar

/-- The usize overflow bound of winnow `dec_uint::<_, usize, _>` on a
64-bit target: accumulation fails once the value no longer fits. -/
def usizeBound : Nat := 2 ^ 64

/-- Numeric value of a digit run. -/
def digitsToNat (ds : List Char) : Nat :=
  ds.foldl (fun acc c => 10 * acc + (c.toNat - 48)) 0

/-- winnow `dec_uint`: a maximal nonempty digit run, failing when no
digit is present or the accumulated value overflows `usize`. -/
def dec_uint : P Nat := fun s =>
  match s.takeWhile isDigitChar with
  | [] => .error []
  | ds =>
    if digitsToNat ds < usizeBound then
      .ok (digitsToNat ds, s.dropWhile isDigitChar)
    else .error []

/-- winnow `take_until(0.., '\n')`: consume up to (not including) the
first newline, failing when the input holds none. -/
def take_until_nl : P (List Char) := fun s =>
  if s.any (fun c => c == '\n') then
    .ok (s.takeWhile (fun c => !(c == '\n')), s.dropWhile (fun c => !(c == '\n')))
  else .error []

/-- Iteration core of winnow `repeat(0.., p)`: on an iteration that
succeeds without consuming, winnow errors out ("repeat parsers must
always consume"); otherwise iterate until `p` fails, rewinding to the
cursor before the failed attempt. -/
def manyAux (p : P α) : Nat → List α → P (List α)
  | 0, _ => fun _ => .error ["fuel"]
  | f + 1, acc => fun s =>
    match p s with
    | .error _ => .ok (acc.reverse, s)
    | .ok (v, t) =>
      if t.length = s.length then .error []
      else manyAux p f (v :: acc) t

/-- winnow `repeat(0.., p)`. -/
def many0 (p : P α) : P (List α) := fun s => manyAux p (s.length + 1) [] s

/-- Iteration core of winnow `separated`: each further element needs a
separator first; a separator that consumes nothing is an error (the
winnow "sep parsers must always consume" guard); when the separator or
the element fails the cursor rewinds to before the separator. -/
def sepAux (p : P α) (sep : P β) : Nat → List α → P (List α)
  | 0, _ => fun _ => .error ["fuel"]
  | f + 1, acc => fun s =>
    match sep s with
    | .error _ => .ok (acc.reverse, s)
    | .ok (_, t1) =>
      if t1.length = s.length then .error []
      else
        match p t1 with
        | .error _ => .ok (acc.reverse, s)
        | .ok (v, t2) => sepAux p sep f (v :: acc) t2

/-- winnow `separated(1.., p, sep)`. -/
def separated1 (p : P α) (sep : P β) : P (List α) := fun s =>
  match p s with
  | .error e => .error e
  | .ok (v, t) => sepAux p sep (t.length + 1) [v] t

/-- winnow `separated(0.., p, sep)`. -/
def separated0 (p : P α) (sep : P β) : P (List α) := fun s =>
  match p s with
  | .error _ => .ok ([], s)
  | .ok (v, t) => sepAux p sep (t.length + 1) [v] t

/-- Loop of winnow `take_escaped(normal, ctrl, escapable)`: repeat the
`normal` parser (erroring when it succeeds without progress); when it
fails, a control character followed by the escapable character is
consumed as content; anything else ends the loop.  Returns the
remaining input. -/
def take_escapedAux (normal : P (List Char)) (ctrl escChar : Char) :
    Nat → List Char → Except PErr (List Char)
  | 0, _ => .error ["fuel"]
  | f + 1, s =>
    match s with
    | [] => .ok []
    | d :: t =>
      match normal (d :: t) with
      | .ok (_, u) =>
        if u.length = (d :: t).length then .error []
        else take_escapedAux normal ctrl escChar f u
      | .error _ =>
        if d == ctrl then
          match t with
          | [] => .error []
          | e :: t2 => if e == escChar then take_escapedAux normal ctrl escChar f t2 else .error []
        else .ok (d :: t)

/-- winnow `take_escaped`: the recognized input slice (escapes kept
verbatim) paired with the rest. -/
def take_escaped (normal : P (List Char)) (ctrl escChar : Char) : P (List Char) := fun s =>
  match take_escapedAux normal ctrl escChar (s.length + 1) s with
  | .error e => .error e
  | .ok rest => .ok (s.take (s.length - rest.length), rest)

/-! ## Data model (`src/lib.rs` types) -/

/-- Expansion result type; named so that it stays visible inside the
`IdsBloc` namespace, where `List` denotes a constructor. -/
abbrev NatList : Type := List Nat

/-- `IdsRange(RangeInclusive<usize>)`: both bounds inclusive.  The Rust
range `start..=end` is stored as the two bounds. -/
structure IdsRange where
  start : Nat
  stop : Nat
deriving DecidableEq, Repr

/-- `IdsList(Vec<usize>)`. -/
structure IdsList where
  ids : List Nat
deriving DecidableEq, Repr

/-- `enum IdsBloc { Range(IdsRange), List(IdsList) }`. -/
inductive IdsBloc where
  | Range : IdsRange → IdsBloc
  | List : IdsList → IdsBloc
deriving DecidableEq, Repr

/-- `Ids(Vec<IdsBloc>)`. -/
structure Ids where
  blocs : List IdsBloc
deriving DecidableEq, Repr

/-- `NodesIds(Ids)`. -/
structure NodesIds where
  ids : Ids
deriving DecidableEq, Repr

/-- `EdgesIds(Ids)`. -/
structure EdgesIds where
  ids : Ids
deriving DecidableEq, Repr

/-- `Edge { id, src, tgt }`. -/
structure Edge where
  id : Nat
  src : Nat
  tgt : Nat
deriving DecidableEq, Repr

/-- `Edges(Vec<Edge>)`. -/
structure Edges where
  edges : List Edge
deriving DecidableEq, Repr

/-- `Date(String)`. -/
structure Date where
  val : String
deriving DecidableEq, Repr

/-- `Comments(String)`. -/
structure Comments where
  val : String
deriving DecidableEq, Repr

/-- `Author(String)`. -/
structure Author where
  val : String
deriving DecidableEq, Repr

/-- `enum PropertyType`. -/
inductive PropertyType where
  | Bool | Color | Double | Graph | Int | Layout | String | Size
deriving DecidableEq, Repr

/-- `NodeProperty { id, value }`. -/
structure NodeProperty where
  id : Nat
  value : String
deriving DecidableEq, Repr

/-- `Property { graph_id, name, type, node_default, edge_default,
nodes_property }`. -/
structure Property where
  graph_id : Nat
  name : String
  type : PropertyType
  node_default : String
  edge_default : String
  nodes_property : List NodeProperty
deriving DecidableEq, Repr

/-- `Attribute { type, name, value }`. -/
structure Attribute where
  type : PropertyType
  name : String
  value : String
deriving DecidableEq, Repr

/-- `Attributes(Vec<Attribute>)`. -/
structure Attributes where
  attrs : List Attribute
deriving DecidableEq, Repr

/-- `Properties(Vec<Property>)`. -/
structure Properties where
  props : List Property
deriving DecidableEq, Repr

/-- `Cluster { id, nodes, edges, clusters }`: a strict tree, children
owned in order. -/
inductive Cluster where
  | mk : Nat → NodesIds → EdgesIds → List Cluster → Cluster

def Cluster.id : Cluster → Nat
  | .mk i _ _ _ => i

def Cluster.nodes : Cluster → NodesIds
  | .mk _ n _ _ => n

def Cluster.edges : Cluster → EdgesIds
  | .mk _ _ e _ => e

def Cluster.children : Cluster → List Cluster
  | .mk _ _ _ cs => cs

/-- `Clusters(Vec<Cluster>)`. -/
structure Clusters where
  list : List Cluster

/-- `Graph`: the parsed document root. -/
structure Graph where
  version : String
  author : Option Author
  comments : Option Comments
  date : Option Date
  nodes : NodesIds
  edges : Edges
  properties : Option Properties
  attributes : Option Attributes
  clusters : Option Clusters

/-! ## Cardinality and expansion (`len` / `to_vec` impls) -/

/-- `IdsRange::len`: the count of the inclusive-range iterator. -/
def IdsRange.len (r : IdsRange) : Nat := r.stop + 1 - r.start

/-- `IdsRange::to_vec`: the elements of `start..=stop` in increasing
order. -/
def IdsRange.to_vec (r : IdsRange) : List Nat :=
  List.range' r.start (r.stop + 1 - r.start)

/-- `IdsList::len`. -/
def IdsList.len (l : IdsList) : Nat := l.ids.length

/-- `IdsList::to_vec`. -/
def IdsList.to_vec (l : IdsList) : List Nat := l.ids

/-- `IdsBloc::len`. -/
def IdsBloc.len : IdsBloc → Nat
  | .Range r => r.len
  | .List l => l.len

/-- `IdsBloc::to_vec`. -/
def IdsBloc.to_vec : IdsBloc → NatList
  | .Range r => r.to_vec
  | .List l => l.to_vec

/-- `Ids::len`: sum of the bloc cardinalities. -/
def Ids.len (i : Ids) : Nat := (i.blocs.map IdsBloc.len).sum

/-- `Ids::to_vec`: concatenated bloc expansions in textual order. -/
def Ids.to_vec (i : Ids) : List Nat := (i.blocs.map IdsBloc.to_vec).flatten

/-! ## Grammar (`src/lib.rs` parser functions, in source order) -/

/-- Opening part of `parse_tag`: the tuple
`('(', space0, tag, space1)` of the source. -/
def tagOpen (tag : List Char) : P Unit := do
  let _ ← pchar '('
  let _ ← space0
  let _ ← pstring tag
  let _ ← space1
  pure ()

/-- Closing part of `parse_tag`: the tuple `(space0, opt(')'))` of the
source — the closing parenthesis is optional. -/
def tagClose : P Unit := do
  let _ ← space0
  let _ ← popt (pchar ')')
  pure ()

/-- `parse_tag(tag, f)`: opening literal and keyword, the inner parser,
then the lenient close; returns the inner result. -/
def parse_tag (tag : List Char) (f : P α) : P α := do
  let _ ← tagOpen tag
  let res ← f
  let _ ← tagClose
  pure res

/-- `parse_ids_range`: `<uint> ".." <uint>`. -/
def parse_ids_range : P IdsRange := do
  let a ← dec_uint
  let _ ← pstring ("..".toList)
  let b ← dec_uint
  pure (IdsRange.mk a b)

/-- `parse_ids_list`: one or more integers separated by whitespace,
each guarded by the negative lookahead `not("..")`. -/
def parse_ids_list : P IdsList :=
  pmap IdsList.mk
    (separated1 (pterminated dec_uint (pnot (pstring ("..".toList)))) multispace1)

/-- `parse_ids_bloc`: ordered choice, range before list. -/
def parse_ids_bloc : P IdsBloc :=
  alt2 (pmap IdsBloc.Range parse_ids_range) (pmap IdsBloc.List parse_ids_list)

/-- `parse_ids`: one or more blocs separated by whitespace. -/
def parse_ids : P Ids :=
  pmap Ids.mk (separated1 parse_ids_bloc multispace1)

/-- `nodes_ids`: `(nodes <ids>)`. -/
def nodes_ids : P NodesIds :=
  pmap NodesIds.mk (parse_tag ("nodes".toList) parse_ids)

/-- `edges_ids`: `(edges <ids>)`. -/
def edges_ids : P EdgesIds :=
  pmap EdgesIds.mk (parse_tag ("edges".toList) parse_ids)

/-- `cluster`, with explicit recursion fuel: `parse_tag("cluster", ...)`
around `cluster_inner` — the id, node set and edge set with their
trailing whitespace, then `repeat(.., cluster)` children and trailing
whitespace.  One fuel unit is spent per nesting level; each level
consumes at least its opening parenthesis before recursing, so fuel
`input.length + 1` (used by `cluster` below) is never exhausted. -/
def clusterFuel : Nat → P Cluster
  | 0 => fun _ => .error ["fuel"]
  | f + 1 =>
    parse_tag ("cluster".toList) (do
      let id ← pterminated dec_uint multispace1
      let nodes ← pterminated nodes_ids multispace1
      let edges ← pterminated edges_ids multispace0
      let children ← many0 (clusterFuel f)
      let _ ← multispace0
      pure (Cluster.mk id nodes edges children))

/-- `cluster`: the recursive cluster grammar. -/
def cluster : P Cluster := fun s => clusterFuel (s.length + 1) s

/-- `clusters`: one or more clusters separated by whitespace. -/
def clusters : P Clusters :=
  pmap Clusters.mk (separated1 cluster multispace1)

/-- `nodes_amount_and_ids`: optional `(nb_nodes <uint>)` hint, optional
single-line `;` comment, then the mandatory `(nodes ...)` block.  In
the source a count that disagrees with `nodes.len()` only prints a
warning on stderr; it never alters the returned value or the cursor,
so the hint is bound and discarded here. -/
def nodes_amount_and_ids : P NodesIds := do
  let _nb_nodes ← popt (pterminated (parse_tag ("nb_nodes".toList) dec_uint) multispace1)
  let _ ← pterminated (popt (do
    let _ ← pchar ';'
    let c ← take_until_nl
    pure c)) multispace0
  let nodes ← nodes_ids
  pure nodes

/-- The `normal` alternation passed to `take_escaped` inside
`parse_string`: `alt((alpha1, space1, take_while(1.., c != quote)))`.
Note the last alternative also consumes backslashes. -/
def string_normal : P (List Char) :=
  alt2 alpha1 (alt2 space1 (take_while1 (fun c => !(c == '"'))))

/-- `parse_string`: the empty literal, or quote-delimited content
recognized by `take_escaped(string_normal, backslash, quote)`. -/
def parse_string : P String :=
  alt2 (pmap (fun _ => "") (pstring ("\"\"".toList)))
    (pmap (fun l => l.asString)
      (pdelimited (pchar '"') (take_escaped string_normal '\\' '"') (pchar '"')))

/-- `date`: `(date <string>)`. -/
def date : P Date := pmap Date.mk (parse_tag ("date".toList) parse_string)

/-- `comments`: `(comments <string>)`. -/
def comments : P Comments := pmap Comments.mk (parse_tag ("comments".toList) parse_string)

/-- `author`: `(author <string>)`.  Declared in the source but never
invoked by the document assembler. -/
def author : P Author := pmap Author.mk (parse_tag ("author".toList) parse_string)

/-- `edge`: `(edge <id> <src> <tgt>)`. -/
def edge : P Edge :=
  parse_tag ("edge".toList) (do
    let id ← dec_uint
    let _ ← space1
    let src ← dec_uint
    let _ ← space1
    let tgt ← dec_uint
    pure (Edge.mk id src tgt))

/-- `nb_edges`: `(nb_edges <uint>)`. -/
def nb_edges : P Nat := parse_tag ("nb_edges".toList) dec_uint

/-- `edges`: optional count hint, optional `;` comment, then zero or
more edge blocks separated by whitespace.  As with the node count, a
mismatching hint only prints a stderr warning in the source, so the
count is bound and discarded. -/
def edges : P Edges := do
  let _count ← popt (pdelimited multispace0 nb_edges multispace0)
  let _ ← pterminated (popt (do
    let _ ← pchar ';'
    let c ← take_until_nl
    pure c)) multispace0
  let es ← separated0 edge multispace0
  pure (Edges.mk es)

/-- `property_type`: keyword alternation in source order. -/
def property_type : P PropertyType :=
  alt2 (pmap (fun _ => PropertyType.Color) (pstring ("color".toList)))
    (alt2 (pmap (fun _ => PropertyType.Double) (pstring ("double".toList)))
      (alt2 (pmap (fun _ => PropertyType.String) (pstring ("string".toList)))
        (alt2 (pmap (fun _ => PropertyType.Int) (pstring ("int".toList)))
          (alt2 (pmap (fun _ => PropertyType.Layout) (pstring ("layout".toList)))
            (alt2 (pmap (fun _ => PropertyType.Graph) (pstring ("graph".toList)))
              (alt2 (pmap (fun _ => PropertyType.Bool) (pstring ("bool".toList)))
                (pmap (fun _ => PropertyType.Size) (pstring ("size".toList)))))))))

/-- `property_default`: `(default <string> <string>)`. -/
def property_default : P (String × String) :=
  parse_tag ("default".toList) (do
    let node ← pterminated parse_string multispace1
    let edge ← pterminated parse_string multispace0
    pure (node, edge))

/-- `property_for_node`: `(node <id> <string>)`. -/
def property_for_node : P NodeProperty :=
  parse_tag ("node".toList) (do
    let id ← pterminated dec_uint multispace1
    let value ← pterminated parse_string multispace0
    pure (NodeProperty.mk id value))

/-- `property`: `(property <graph_id> <type> <name> <default>
<node-override>* )`. -/
def property : P Property :=
  parse_tag ("property".toList) (do
    let graph_id ← pdelimited multispace0 dec_uint multispace1
    let ty ← pterminated property_type multispace1
    let name ← pterminated parse_string multispace1
    let dflt ← pterminated property_default multispace1
    let nodes_property ← popt (pterminated (many0 (pterminated property_for_node multispace0)) multispace0)
    pure (Property.mk graph_id name ty dflt.1 dflt.2 (nodes_property.getD [])))

/-- `properties`: zero or more property blocks. -/
def properties : P Properties :=
  pmap Properties.mk (many0 (pterminated property multispace0))

/-- `attribute`: `(<type> <string> <string>)`.  Named `attributeEntry`
here because `attribute` is reserved in Lean. -/
def attributeEntry : P Attribute :=
  pmap (fun t => Attribute.mk t.1 t.2.1 t.2.2)
    (pdelimited (do
        let _ ← multispace0
        let _ ← pchar '('
        let _ ← multispace0
        pure ())
      (do
        let ty ← pterminated property_type multispace1
        let name ← pterminated parse_string multispace1
        let value ← parse_string
        pure (ty, name, value))
      (do
        let _ ← multispace0
        let _ ← pchar ')'
        let _ ← multispace0
        pure ()))

/-- `attributes`: `(graph_attributes <graph_id> <attribute>* )`. -/
def attributes : P Attributes :=
  parse_tag ("graph_attributes".toList) (do
    let _graph_id ← pdelimited multispace0 dec_uint multispace1
    let attrs ← many0 (pterminated attributeEntry multispace0)
    pure (Attributes.mk attrs))

/-- `inner_graph`: the document body in fixed section order.  The
`author` field is set to `None` unconditionally — the `author` parser
is never invoked. -/
def inner_graph : P Graph := do
  let version ← pterminated parse_string multispace0
  let d ← popt (pterminated date multispace0)
  let cm ← popt (pterminated comments multispace0)
  let nodes ← pcontext "Nodes parsing" (pterminated nodes_amount_and_ids multispace0)
  let es ← pcontext "Edges parsing" (pterminated edges multispace0)
  let cl ← popt (pterminated clusters multispace0)
  let props ← popt (pterminated properties multispace0)
  let attrs ← popt (pterminated attributes multispace0)
  pure (Graph.mk version none cm d nodes es props attrs cl)

/-- `graph`: the document assembler — the tagged `(tlp ...)` block with
trailing whitespace consumed. -/
def graph : P Graph := pterminated (parse_tag ("tlp".toList) inner_graph) multispace0

/-- `Graph::from_str`: `graph.parse(s)`.  The winnow `Parser::parse`
entry point additionally runs `eof`, so any unconsumed input after
`graph` is an error. -/
def Graph.from_str (s : List Char) : Except PErr Graph :=
  match graph s with
  | .error e => .error e
  | .ok (g, []) => .ok g
  | .ok (_, _ :: _) => .error []

/-! ## Toolkit lemmas about the embedding -/

theorem Pbind_eq (p : P α) (f : α → P β) : p >>= f = P.bind p f := rfl

theorem Ppure_eq (a : α) : (pure a : P α) = P.pure a := rfl

theorem runPure (a : α) (s : List Char) : P.pure a s = .ok (a, s) := rfl

theorem runBind_ok {p : P α} {f : α → P β} {s : List Char} {v : α} {t : List Char}
    (h : p s = .ok (v, t)) : P.bind p f s = f v t := by
  unfold P.bind
  rw [h]

theorem runBind_err {p : P α} {f : α → P β} {s : List Char} {e : PErr}
    (h : p s = .error e) : P.bind p f s = .error e := by
  unfold P.bind
  rw [h]

theorem runBind_elim {p : P α} {f : α → P β} {s : List Char} {r : β × List Char}
    (h : P.bind p f s = .ok r) : ∃ v t, p s = .ok (v, t) ∧ f v t = .ok r := by
  unfold P.bind at h
  cases hp : p s with
  | error e => rw [hp] at h; cases h
  | ok vt => exact ⟨vt.1, vt.2, by rw [← hp], by rw [hp] at h; exact h⟩

theorem runPmap_ok {p : P α} {f : α → β} {s : List Char} {v : α} {t : List Char}
    (h : p s = .ok (v, t)) : pmap f p s = .ok (f v, t) := by
  unfold pmap
  rw [h]

theorem runPmap_err {p : P α} {f : α → β} {s : List Char} {e : PErr}
    (h : p s = .error e) : pmap f p s = .error e := by
  unfold pmap
  rw [h]

theorem runAlt2_ok {p q : P α} {s : List Char} {r : α × List Char}
    (h : p s = .ok r) : alt2 p q s = .ok r := by
  unfold alt2
  rw [h]

theorem runAlt2_err {p q : P α} {s : List Char} {e : PErr}
    (h : p s = .error e) : alt2 p q s = q s := by
  unfold alt2
  rw [h]

theorem runPopt_ok {p : P α} {s : List Char} {v : α} {t : List Char}
    (h : p s = .ok (v, t)) : popt p s = .ok (some v, t) := by
  unfold popt
  rw [h]

theorem runPopt_err {p : P α} {s : List Char} {e : PErr}
    (h : p s = .error e) : popt p s = .ok (none, s) := by
  unfold popt
  rw [h]

theorem runPnot_ok {p : P α} {s : List Char} {r : α × List Char}
    (h : p s = .ok r) : pnot p s = .error [] := by
  unfold pnot
  rw [h]

theorem runPnot_err {p : P α} {s : List Char} {e : PErr}
    (h : p s = .error e) : pnot p s = .ok ((), s) := by
  unfold pnot
  rw [h]

theorem runTerminated_ok {p : P α} {q : P β} {s : List Char} {v : α} {t u : List Char} {w : β}
    (hp : p s = .ok (v, t)) (hq : q t = .ok (w, u)) : pterminated p q s = .ok (v, u) := by
  unfold pterminated
  rw [Pbind_eq, runBind_ok hp, Pbind_eq, runBind_ok hq]
  rfl

theorem runTerminated_err1 {p : P α} {q : P β} {s : List Char} {e : PErr}
    (hp : p s = .error e) : pterminated p q s = .error e := by
  unfold pterminated
  rw [Pbind_eq, runBind_err hp]

theorem runTerminated_err2 {p : P α} {q : P β} {s : List Char} {v : α} {t : List Char} {e : PErr}
    (hp : p s = .ok (v, t)) (hq : q t = .error e) : pterminated p q s = .error e := by
  unfold pterminated
  rw [Pbind_eq, runBind_ok hp, Pbind_eq, runBind_err hq]

theorem runPcontext_ok {p : P α} {s : List Char} {r : α × List Char}
    (h : p s = .ok r) : pcontext lbl p s = .ok r := by
  unfold pcontext
  rw [h]

/-- Splitting a maximal run: `takeWhile`/`dropWhile` on `w ++ t` when
every character of `w` matches and the head of `t` does not. -/
theorem takeWhile_append_stop {p : Char → Bool} {w t : List Char}
    (hw : ∀ c ∈ w, p c = true) (ht : ∀ c, t.head? = some c → p c = false) :
    (w ++ t).takeWhile p = w ∧ (w ++ t).dropWhile p = t := by
  induction w with
  | nil =>
    cases t with
    | nil => exact ⟨rfl, rfl⟩
    | cons c t' =>
      have hc : p c = false := ht c rfl
      simp [List.takeWhile, List.dropWhile, hc]
  | cons c w' ih =>
    have hc : p c = true := hw c (List.mem_cons_self c w')
    have ih' := ih (fun d hd => hw d (List.mem_cons_of_mem c hd))
    simp [List.takeWhile, List.dropWhile, hc, ih'.1, ih'.2]

theorem take_while0_split {f : Char → Bool} {w t : List Char}
    (hw : ∀ c ∈ w, f c = true) (ht : ∀ c, t.head? = some c → f c = false) :
    take_while0 f (w ++ t) = .ok (w, t) := by
  unfold take_while0
  rw [(takeWhile_append_stop hw ht).1, (takeWhile_append_stop hw ht).2]

theorem take_while1_split {f : Char → Bool} {w t : List Char} (hne : w ≠ [])
    (hw : ∀ c ∈ w, f c = true) (ht : ∀ c, t.head? = some c → f c = false) :
    take_while1 f (w ++ t) = .ok (w, t) := by
  unfold take_while1
  rw [(takeWhile_append_stop hw ht).1, (takeWhile_append_stop hw ht).2]
  cases w with
  | nil => exact absurd rfl hne
  | cons c w' => rfl

/-- `dec_uint` on a nonempty digit run followed by a non-digit. -/
theorem dec_uint_split {ds t : List Char} (hne : ds ≠ [])
    (hds : ∀ c ∈ ds, isDigitChar c = true)
    (ht : ∀ c, t.head? = some c → isDigitChar c = false)
    (hbound : digitsToNat ds < usizeBound) :
    dec_uint (ds ++ t) = .ok (digitsToNat ds, t) := by
  unfold dec_uint
  rw [(takeWhile_append_stop hds ht).1, (takeWhile_append_stop hds ht).2]
  cases ds with
  | nil => exact absurd rfl hne
  | cons c cs => simp only [if_pos hbound]

/-- A literal consumes exactly itself from the front of the input. -/
theorem pstring_exact (lit t : List Char) : pstring lit (lit ++ t) = .ok ((), t) := by
  induction lit with
  | nil => rfl
  | cons c cs ih =>
    show P.bind (pchar c) (fun _ => pstring cs) (c :: (cs ++ t)) = .ok ((), t)
    have hc : pchar c (c :: (cs ++ t)) = .ok ((), cs ++ t) := by
      unfold pchar
      simp
    rw [runBind_ok hc, ih]

theorem digit_not_space {c : Char} (h : isDigitChar c = true) : isSpaceTabChar c = false := by
  unfold isDigitChar at h
  unfold isSpaceTabChar
  simp only [Bool.and_eq_true, decide_eq_true_eq] at h
  simp only [Bool.or_eq_false_iff, beq_eq_false_iff_ne, ne_eq]
  omega

theorem digit_not_multispace {c : Char} (h : isDigitChar c = true) :
    isMultispaceChar c = false := by
  unfold isDigitChar at h
  unfold isMultispaceChar
  simp only [Bool.and_eq_true, decide_eq_true_eq] at h
  simp only [Bool.or_eq_false_iff, beq_eq_false_iff_ne, ne_eq]
  omega

/-! ## Claim theorems -/

/-- C4: for `a ≤ b`, `Range{a,b}` expands to the increasing run
`[a, a+1, ..., b]` (of length `b - a + 1`, the list `range' a (b-a+1)`)
and its cardinality is `b - a + 1`; for `a > b` the expansion is empty
and the cardinality is 0, with no normalization and no failure; and an
id set's logical size is the sum of its bloc cardinalities. -/
theorem ids_range_semantics (a b : Nat) (blocs : List IdsBloc) :
    (a ≤ b →
      (IdsRange.mk a b).len = b - a + 1 ∧
      (IdsRange.mk a b).to_vec = List.range' a (b - a + 1)) ∧
    (a > b →
      (IdsRange.mk a b).to_vec = [] ∧ (IdsRange.mk a b).len = 0) ∧
    (Ids.mk blocs).len = (blocs.map IdsBloc.len).sum := by
  refine ⟨fun h => ⟨?_, ?_⟩, fun h => ⟨?_, ?_⟩, rfl⟩
  · show b + 1 - a = b - a + 1
    omega
  · show List.range' a (b + 1 - a) = List.range' a (b - a + 1)
    congr 1
    omega
  · show List.range' a (b + 1 - a) = []
    rw [show b + 1 - a = 0 by omega, List.range'_zero]
  · show b + 1 - a = 0
    omega

/-- C4 witness: the range semantics at the concrete ranges `2..=5`
(increasing) and `7..=3` (decreasing, silently empty). -/
theorem ids_range_semantics_witness :
    ((2 : Nat) ≤ 5 ∧ (IdsRange.mk 2 5).len = 5 - 2 + 1 ∧
      (IdsRange.mk 2 5).to_vec = List.range' 2 (5 - 2 + 1)) ∧
    ((7 : Nat) > 3 ∧ (IdsRange.mk 7 3).to_vec = [] ∧ (IdsRange.mk 7 3).len = 0) :=
  ⟨⟨by decide, (ids_range_semantics 2 5 []).1 (by decide)⟩,
   ⟨by decide, ((ids_range_semantics 7 3 []).2).1 (by decide)⟩⟩

/-- C5 counterexample: on the literal `"a\"b"` the parser does NOT
continue past the escaped quote: the result is not the claimed
content `a\"b` with the final quote as terminator; instead the string
closes at the quote after the backslash (see the amended theorem). -/
theorem parse_string_escape_counterexample :
    parse_string ("\"a\\\"b\"".toList) ≠ .ok ("a\\\"b", []) := by
  rw [show parse_string ("\"a\\\"b\"".toList) = .ok ("a\\", ('b' :: ('"' :: []))) from rfl]
  simp

/-- C5 amended: the quoted-string parser maps `""` to the empty string;
but a backslash inside a literal is consumed as ordinary content by the
`take_while(1.., c != quote)` alternative of the normal parser, so the
quote following it terminates the literal: `"a\"b"` parses to the
two-character content `a\` with `b"` left unconsumed. -/
theorem parse_string_semantics :
    parse_string ("\"\"".toList) = .ok ("", []) ∧
    parse_string ("\"a\\\"b\"".toList) = .ok ("a\\", ('b' :: ('"' :: []))) :=
  ⟨rfl, rfl⟩

/-- The concrete document of scenario 4 of the specification. -/
def c2Input : List Char :=
  "(tlp \"2.0\" (nodes 0 1 2) (edge 0 1 0) (edge 1 0 2) )".toList

/-- The value the parser actually produces for `c2Input`. -/
def c2Graph : Graph :=
  Graph.mk "2.0" none none none
    (NodesIds.mk (Ids.mk [IdsBloc.List (IdsList.mk [0, 1, 2])]))
    (Edges.mk [Edge.mk 0 1 0, Edge.mk 1 0 2])
    (some (Properties.mk [])) none none

/-- C2 counterexample: parsing the scenario document succeeds, but the
`properties` field of the result is `Some` (of an empty list), not
`None` as claimed: the optional properties section wraps a
`repeat(0..)` that succeeds on zero occurrences, so `opt` always sees
success. -/
theorem graph_scenario_properties_not_none :
    Graph.from_str c2Input = .ok c2Graph ∧ c2Graph.properties ≠ none := by
  refine ⟨rfl, ?_⟩
  rw [show c2Graph.properties = some (Properties.mk []) from rfl]
  simp

/-- C2 amended: the scenario document parses into a graph with version
`"2.0"`, a node set of cardinality 3 expanding to `[0, 1, 2]`, exactly
the two declared edges in order, absent date, comments, clusters and
attributes, and `properties = Some(empty)` (never `None` on a
successful parse). -/
theorem graph_scenario_parse :
    Graph.from_str c2Input = .ok c2Graph ∧
    c2Graph.version = "2.0" ∧
    c2Graph.nodes.ids.len = 3 ∧
    c2Graph.nodes.ids.to_vec = [0, 1, 2] ∧
    c2Graph.edges.edges = [Edge.mk 0 1 0, Edge.mk 1 0 2] ∧
    c2Graph.date = none ∧
    c2Graph.comments = none ∧
    c2Graph.clusters = none ∧
    c2Graph.attributes = none ∧
    c2Graph.properties = some (Properties.mk []) :=
  ⟨rfl, rfl, rfl, rfl, rfl, rfl, rfl, rfl, rfl, rfl⟩

/-- A minimal valid document and its parse result, used by the claims
about `Graph::from_str`. -/
def tlpMinimalInput : List Char := "(tlp \"2.0\" (nodes 0) )".toList

/-- Parse result of `tlpMinimalInput`. -/
def tlpMinimalGraph : Graph :=
  Graph.mk "2.0" none none none
    (NodesIds.mk (Ids.mk [IdsBloc.List (IdsList.mk [0])]))
    (Edges.mk []) (some (Properties.mk [])) none none

/-- C8 counterexample: there is no input on which the assembler leaves
unconsumed (necessarily non-whitespace) trailing text and
`Graph::from_str` still succeeds — `from_str` runs the winnow `parse`
entry point, which also demands end of input. -/
theorem from_str_trailing_counterexample :
    ¬ ∃ (s : List Char) (g : Graph) (rest : List Char) (g2 : Graph),
        graph s = .ok (g, rest) ∧ rest ≠ [] ∧ Graph.from_str s = .ok g2 := by
  rintro ⟨s, g, rest, g2, h1, h2, h3⟩
  unfold Graph.from_str at h3
  rw [h1] at h3
  cases rest with
  | nil => exact h2 rfl
  | cons c t => cases h3

/-- C8 amended: the `graph` assembler itself does not require end of
input — on a valid `(tlp ...)` block followed by `xyz` it succeeds and
leaves exactly `xyz` unconsumed — but `Graph::from_str` wraps it in the
winnow `parse` entry point, which appends an end-of-input check, so the
same input makes `from_str` fail; `from_str` succeeds exactly when
`graph` consumes the whole input. -/
theorem from_str_requires_full_consumption :
    graph (tlpMinimalInput ++ "xyz".toList) = .ok (tlpMinimalGraph, "xyz".toList) ∧
    Graph.from_str (tlpMinimalInput ++ "xyz".toList) = .error [] ∧
    (∀ s g, Graph.from_str s = .ok g → graph s = .ok (g, [])) := by
  refine ⟨rfl, rfl, fun s g h => ?_⟩
  unfold Graph.from_str at h
  cases hg : graph s with
  | error e => rw [hg] at h; cases h
  | ok r =>
    obtain ⟨g2, rest⟩ := r
    rw [hg] at h
    cases rest with
    | nil => cases h; rfl
    | cons c t => cases h

/-- C8 amended witness: the full-consumption direction applied at the
minimal document, whose parse consumes everything. -/
theorem from_str_requires_full_consumption_witness :
    Graph.from_str tlpMinimalInput = .ok tlpMinimalGraph ∧
    graph tlpMinimalInput = .ok (tlpMinimalGraph, []) :=
  ⟨rfl, (from_str_requires_full_consumption.2.2) tlpMinimalInput tlpMinimalGraph rfl⟩

/-- Input whose `(date ...)` section is simply absent (the keyword does
not match). -/
def c9AbsentInput : List Char := "(nodes 0)".toList

/-- Input whose `(date ...)` section is present but malformed (the
keyword matches, the inner string parser fails on `123`). -/
def c9MalformedInput : List Char := "(date 123)".toList

/-- C9 counterexample: the failure for "tag not found" and the failure
for "tag found but content invalid" are the same error value (an empty
backtracking context — the source never uses `cut_err` and attaches no
context inside `parse_tag`), so no caller can decide from the error
which case occurred. -/
theorem parse_tag_error_counterexample :
    (parse_tag ("date".toList) parse_string) c9AbsentInput = .error [] ∧
    (parse_tag ("date".toList) parse_string) c9MalformedInput = .error [] ∧
    (parse_tag ("date".toList) parse_string) c9AbsentInput =
      (parse_tag ("date".toList) parse_string) c9MalformedInput :=
  ⟨rfl, rfl, rfl⟩

/-- C9 amended: both failure modes of a tagged block produce the same
backtracking error value, so they are not distinguishable; in
particular an `opt`-wrapped caller treats a present-but-malformed
section exactly like an absent one (both yield `none` with the cursor
rewound). -/
theorem parse_tag_error_indistinguishable :
    ((parse_tag ("date".toList) parse_string) c9AbsentInput =
      (parse_tag ("date".toList) parse_string) c9MalformedInput) ∧
    popt (parse_tag ("date".toList) parse_string) c9AbsentInput = .ok (none, c9AbsentInput) ∧
    popt (parse_tag ("date".toList) parse_string) c9MalformedInput = .ok (none, c9MalformedInput) :=
  ⟨rfl, rfl, rfl⟩

/-- Any successful run of the assembler builds the document with
`author := None`: the final constructor of `inner_graph` is the only
success path. -/
theorem graph_run_author {s t : List Char} {g : Graph} (h : graph s = .ok (g, t)) :
    g.author = none := by
  unfold graph pterminated parse_tag inner_graph at h
  simp only [Pbind_eq] at h
  obtain ⟨v, t1, hv, hrest⟩ := runBind_elim h
  obtain ⟨g2, t2, hg2, hrest2⟩ := runBind_elim hrest
  have hgv : g = v := by
    rw [Ppure_eq] at hrest2
    unfold P.pure at hrest2
    cases hrest2
    rfl
  subst hgv
  obtain ⟨u0, s1, _, hv1⟩ := runBind_elim hv
  obtain ⟨gi, s2, hgi, hv2⟩ := runBind_elim hv1
  obtain ⟨ver, u1, _, h1⟩ := runBind_elim hgi
  obtain ⟨dv, u2, _, h2⟩ := runBind_elim h1
  obtain ⟨cv, u3, _, h3⟩ := runBind_elim h2
  obtain ⟨nv, u4, _, h4⟩ := runBind_elim h3
  obtain ⟨ev, u5, _, h5⟩ := runBind_elim h4
  obtain ⟨clv, u6, _, h6⟩ := runBind_elim h5
  obtain ⟨pv, u7, _, h7⟩ := runBind_elim h6
  obtain ⟨av, u8, _, h8⟩ := runBind_elim h7
  rw [Ppure_eq] at h8
  unfold P.pure at h8
  obtain ⟨w0, s3, _, hv3⟩ := runBind_elim hv2
  rw [Ppure_eq] at hv3
  unfold P.pure at hv3
  cases hv3
  cases h8
  rfl

/-- C10: for every input on which `Graph::from_str` succeeds, the
resulting author field is `None` — the assembler never invokes the
`author` parser and constructs the document with `author: None`
unconditionally. -/
theorem graph_author_none (s : List Char) (g : Graph)
    (h : Graph.from_str s = .ok g) : g.author = none := by
  unfold Graph.from_str at h
  cases hg : graph s with
  | error e => rw [hg] at h; cases h
  | ok r =>
    obtain ⟨g2, rest⟩ := r
    rw [hg] at h
    cases rest with
    | nil =>
      cases h
      exact graph_run_author hg
    | cons c tl => cases h

/-- C10 witness: the invariant at a concrete minimal document. -/
theorem graph_author_none_witness :
    Graph.from_str tlpMinimalInput = .ok tlpMinimalGraph ∧
    tlpMinimalGraph.author = none :=
  ⟨rfl, graph_author_none tlpMinimalInput tlpMinimalGraph rfl⟩

/-- C1: on any input beginning with a decimal unsigned integer,
immediately `..`, and another decimal unsigned integer (values in
`usize` range, the following character not a digit), `parse_ids_bloc`
returns the `Range` bloc — the range alternative is tried first and
wins — and `parse_ids_list` rejects the same input outright because its
first element is guarded by the negative lookahead on a trailing `..`;
so a decreasing range such as `37830..37829` parses as a `Range` bloc,
never as two separate list tokens. -/
theorem parse_ids_bloc_prefers_range (d1 d2 r : List Char)
    (h1 : d1 ≠ []) (h2 : ∀ c ∈ d1, isDigitChar c = true) (h3 : digitsToNat d1 < usizeBound)
    (h4 : d2 ≠ []) (h5 : ∀ c ∈ d2, isDigitChar c = true) (h6 : digitsToNat d2 < usizeBound)
    (hr : ∀ c, r.head? = some c → isDigitChar c = false) :
    parse_ids_bloc (d1 ++ ('.' :: '.' :: (d2 ++ r))) =
      .ok (IdsBloc.Range (IdsRange.mk (digitsToNat d1) (digitsToNat d2)), r) ∧
    parse_ids_list (d1 ++ ('.' :: '.' :: (d2 ++ r))) = .error [] := by
  have hdot : ∀ c, ('.' :: '.' :: (d2 ++ r)).head? = some c → isDigitChar c = false := by
    intro c hc
    simp only [List.head?_cons, Option.some.injEq] at hc
    subst hc
    decide
  have hdu1 : dec_uint (d1 ++ ('.' :: '.' :: (d2 ++ r))) =
      .ok (digitsToNat d1, '.' :: '.' :: (d2 ++ r)) := dec_uint_split h1 h2 hdot h3
  have hdots : pstring ("..".toList) ('.' :: '.' :: (d2 ++ r)) = .ok ((), d2 ++ r) :=
    pstring_exact ("..".toList) (d2 ++ r)
  have hdu2 : dec_uint (d2 ++ r) = .ok (digitsToNat d2, r) := dec_uint_split h4 h5 hr h6
  have hrange : parse_ids_range (d1 ++ ('.' :: '.' :: (d2 ++ r))) =
      .ok (IdsRange.mk (digitsToNat d1) (digitsToNat d2), r) := by
    unfold parse_ids_range
    simp only [Pbind_eq]
    rw [runBind_ok hdu1, runBind_ok hdots, runBind_ok hdu2]
    rfl
  have hel : pterminated dec_uint (pnot (pstring ("..".toList)))
      (d1 ++ ('.' :: '.' :: (d2 ++ r))) = .error [] :=
    runTerminated_err2 hdu1 (runPnot_ok hdots)
  constructor
  · unfold parse_ids_bloc
    exact runAlt2_ok (runPmap_ok hrange)
  · unfold parse_ids_list
    apply runPmap_err
    unfold separated1
    rw [hel]

/-- C1 witness: the decreasing range `37830..37829` parses as a `Range`
bloc and is rejected by the list alternative. -/
theorem parse_ids_bloc_prefers_range_witness :
    parse_ids_bloc ("37830..37829".toList) =
      .ok (IdsBloc.Range (IdsRange.mk 37830 37829), []) ∧
    parse_ids_list ("37830..37829".toList) = .error [] :=
  parse_ids_bloc_prefers_range ("37830".toList) ("37829".toList) []
    (by decide) (by decide) (by decide) (by decide) (by decide) (by decide)
    (fun c hc => Option.noConfusion hc)

/-- The tag opening on a keyword followed by one space and a digit
run: the maximal-munch space run after the keyword stops at the first
digit. -/
theorem tagOpen_digits (k0 : Char) (ktl ds t : List Char)
    (hk0 : isSpaceTabChar k0 = false)
    (hds : ds ≠ []) (hdig : ∀ c ∈ ds, isDigitChar c = true) :
    tagOpen (k0 :: ktl) ('(' :: ((k0 :: ktl) ++ (' ' :: (ds ++ t)))) = .ok ((), ds ++ t) := by
  unfold tagOpen
  simp only [Pbind_eq]
  rw [runBind_ok (show pchar '(' ('(' :: ((k0 :: ktl) ++ (' ' :: (ds ++ t)))) =
    .ok ((), (k0 :: ktl) ++ (' ' :: (ds ++ t))) from by unfold pchar; simp)]
  have hs0 : space0 ((k0 :: ktl) ++ (' ' :: (ds ++ t))) =
      .ok ([], (k0 :: ktl) ++ (' ' :: (ds ++ t))) := by
    apply take_while0_split (w := [])
    · intro c hc
      cases hc
    · intro c hc
      simp only [List.cons_append, List.head?_cons, Option.some.injEq] at hc
      subst hc
      exact hk0
  rw [runBind_ok hs0]
  rw [runBind_ok (pstring_exact (k0 :: ktl) (' ' :: (ds ++ t)))]
  have hsp : space1 (' ' :: (ds ++ t)) = .ok ([' '], ds ++ t) := by
    apply take_while1_split (w := [' '])
    · exact List.cons_ne_nil _ _
    · intro c hc
      simp only [List.mem_singleton] at hc
      subst hc
      decide
    · intro c hc
      obtain ⟨d, tl, rfl⟩ : ∃ d tl, ds = d :: tl := by
        cases ds with
        | nil => exact absurd rfl hds
        | cons d tl => exact ⟨d, tl, rfl⟩
      have hdc : d = c := Option.some.inj hc
      subst hdc
      exact digit_not_space (hdig d (List.mem_cons_self d tl))
  rw [runBind_ok hsp]
  rfl

/-- The node set parsed from `(nodes 0 1 2)`. -/
def c3Nodes : NodesIds := NodesIds.mk (Ids.mk [IdsBloc.List (IdsList.mk [0, 1, 2])])

/-- C3: an input declaring any node count hint (here an arbitrary
digit string, in particular one whose value differs from 3) followed by
a 3-id nodes block parses successfully into the 3-element set — the
parsed set is the result, the hint never causes failure; and the same
advisory policy holds for `nb_edges` against the parsed edge blocks. -/
theorem count_mismatch_advisory (ds1 ds2 : List Char)
    (h1 : ds1 ≠ []) (h2 : ∀ c ∈ ds1, isDigitChar c = true) (h3 : digitsToNat ds1 < usizeBound)
    (hm1 : digitsToNat ds1 ≠ 3)
    (h4 : ds2 ≠ []) (h5 : ∀ c ∈ ds2, isDigitChar c = true) (h6 : digitsToNat ds2 < usizeBound)
    (hm2 : digitsToNat ds2 ≠ 2) :
    nodes_amount_and_ids ("(nb_nodes ".toList ++ (ds1 ++ ") (nodes 0 1 2)".toList)) =
      .ok (c3Nodes, []) ∧
    c3Nodes.ids.len = 3 ∧
    edges ("(nb_edges ".toList ++ (ds2 ++ ") (edge 0 1 0) (edge 1 0 2)\n".toList)) =
      .ok (Edges.mk [Edge.mk 0 1 0, Edge.mk 1 0 2], ['\n']) := by
  refine ⟨?_, rfl, ?_⟩
  · -- nodes part
    have hopen : tagOpen ("nb_nodes".toList)
        ("(nb_nodes ".toList ++ (ds1 ++ ") (nodes 0 1 2)".toList)) =
        .ok ((), ds1 ++ ") (nodes 0 1 2)".toList) :=
      tagOpen_digits 'n' ("b_nodes".toList) ds1 (") (nodes 0 1 2)".toList) (by decide) h1 h2
    have hdu : dec_uint (ds1 ++ ") (nodes 0 1 2)".toList) =
        .ok (digitsToNat ds1, ") (nodes 0 1 2)".toList) := by
      refine dec_uint_split h1 h2 ?_ h3
      intro c hc
      have : ')' = c := Option.some.inj hc
      subst this
      decide
    have htag : parse_tag ("nb_nodes".toList) dec_uint
        ("(nb_nodes ".toList ++ (ds1 ++ ") (nodes 0 1 2)".toList)) =
        .ok (digitsToNat ds1, " (nodes 0 1 2)".toList) := by
      unfold parse_tag
      simp only [Pbind_eq]
      rw [runBind_ok hopen, runBind_ok hdu,
        runBind_ok (show tagClose (") (nodes 0 1 2)".toList) =
          .ok ((), " (nodes 0 1 2)".toList) from rfl)]
      rfl
    have hterm : pterminated (parse_tag ("nb_nodes".toList) dec_uint) multispace1
        ("(nb_nodes ".toList ++ (ds1 ++ ") (nodes 0 1 2)".toList)) =
        .ok (digitsToNat ds1, "(nodes 0 1 2)".toList) :=
      runTerminated_ok htag (by rfl)
    unfold nodes_amount_and_ids
    simp only [Pbind_eq]
    rw [runBind_ok (runPopt_ok hterm)]
    rfl
  · -- edges part
    have hopen : tagOpen ("nb_edges".toList)
        ("(nb_edges ".toList ++ (ds2 ++ ") (edge 0 1 0) (edge 1 0 2)\n".toList)) =
        .ok ((), ds2 ++ ") (edge 0 1 0) (edge 1 0 2)\n".toList) :=
      tagOpen_digits 'n' ("b_edges".toList) ds2 (") (edge 0 1 0) (edge 1 0 2)\n".toList)
        (by decide) h4 h5
    have hdu : dec_uint (ds2 ++ ") (edge 0 1 0) (edge 1 0 2)\n".toList) =
        .ok (digitsToNat ds2, ") (edge 0 1 0) (edge 1 0 2)\n".toList) := by
      refine dec_uint_split h4 h5 ?_ h6
      intro c hc
      have : ')' = c := Option.some.inj hc
      subst this
      decide
    have htag : nb_edges
        ("(nb_edges ".toList ++ (ds2 ++ ") (edge 0 1 0) (edge 1 0 2)\n".toList)) =
        .ok (digitsToNat ds2, " (edge 0 1 0) (edge 1 0 2)\n".toList) := by
      unfold nb_edges parse_tag
      simp only [Pbind_eq]
      rw [runBind_ok hopen, runBind_ok hdu,
        runBind_ok (show tagClose (") (edge 0 1 0) (edge 1 0 2)\n".toList) =
          .ok ((), " (edge 0 1 0) (edge 1 0 2)\n".toList) from rfl)]
      rfl
    have hdelim : pdelimited multispace0 nb_edges multispace0
        ("(nb_edges ".toList ++ (ds2 ++ ") (edge 0 1 0) (edge 1 0 2)\n".toList)) =
        .ok (digitsToNat ds2, "(edge 0 1 0) (edge 1 0 2)\n".toList) := by
      unfold pdelimited
      simp only [Pbind_eq]
      rw [runBind_ok (show multispace0
        ("(nb_edges ".toList ++ (ds2 ++ ") (edge 0 1 0) (edge 1 0 2)\n".toList)) =
        .ok ([], "(nb_edges ".toList ++ (ds2 ++ ") (edge 0 1 0) (edge 1 0 2)\n".toList)) from rfl)]
      rw [runBind_ok htag]
      rw [runBind_ok (show multispace0 (" (edge 0 1 0) (edge 1 0 2)\n".toList) =
        .ok ([' '], "(edge 0 1 0) (edge 1 0 2)\n".toList) from rfl)]
      rfl
    unfold edges
    simp only [Pbind_eq]
    rw [runBind_ok (runPopt_ok hdelim)]
    rfl

/-- C3 witness: hint `(nb_nodes 5)` with 3 parsed ids and `(nb_edges 7)`
with 2 parsed edges both succeed, yielding the parsed collections. -/
theorem count_mismatch_advisory_witness :
    nodes_amount_and_ids ("(nb_nodes 5) (nodes 0 1 2)".toList) = .ok (c3Nodes, []) ∧
    c3Nodes.ids.len = 3 ∧
    edges ("(nb_edges 7) (edge 0 1 0) (edge 1 0 2)\n".toList) =
      .ok (Edges.mk [Edge.mk 0 1 0, Edge.mk 1 0 2], ['\n']) :=
  count_mismatch_advisory ("5".toList) ("7".toList) (by decide) (by decide) (by decide)
    (by decide) (by decide) (by decide) (by decide) (by decide)

/-- C6: for any tagged block — any keyword and inner parser — once the
opening (`(` + keyword + whitespace) has matched and the inner parser
has produced its value leaving optional spaces, the block is accepted
with the inner result whether the final `)` is present or missing: the
closing phase `space0 (')')?` never fails, and the returned value is
the inner value either way. -/
theorem parse_tag_optional_close {α : Type} (tag : List Char) (f : P α)
    (s1 s2 t1 t2 : List Char) (v : α) (w r : List Char)
    (ho1 : tagOpen tag s1 = .ok ((), t1))
    (ho2 : tagOpen tag s2 = .ok ((), t2))
    (hf1 : f t1 = .ok (v, w ++ (')' :: r)))
    (hf2 : f t2 = .ok (v, w))
    (hw : ∀ c ∈ w, isSpaceTabChar c = true) :
    parse_tag tag f s1 = .ok (v, r) ∧ parse_tag tag f s2 = .ok (v, []) := by
  have hc1 : tagClose (w ++ (')' :: r)) = .ok ((), r) := by
    unfold tagClose
    simp only [Pbind_eq]
    have hs0 : space0 (w ++ (')' :: r)) = .ok (w, ')' :: r) := by
      apply take_while0_split hw
      intro c hc
      have : ')' = c := Option.some.inj hc
      subst this
      decide
    rw [runBind_ok hs0]
    rw [runBind_ok (runPopt_ok (show pchar ')' (')' :: r) = .ok ((), r) from by
      unfold pchar; simp))]
    rfl
  have hc2 : tagClose w = .ok ((), []) := by
    unfold tagClose
    simp only [Pbind_eq]
    have hs0 : space0 w = .ok (w, []) := by
      have := take_while0_split (w := w) (t := ([] : List Char)) hw
        (fun c hc => Option.noConfusion hc)
      rw [List.append_nil] at this
      exact this
    rw [runBind_ok hs0]
    rw [runBind_ok (runPopt_err (show pchar ')' [] = .error [] from rfl))]
    rfl
  constructor
  · unfold parse_tag
    simp only [Pbind_eq]
    rw [runBind_ok ho1, runBind_ok hf1, runBind_ok hc1]
    rfl
  · unfold parse_tag
    simp only [Pbind_eq]
    rw [runBind_ok ho2, runBind_ok hf2, runBind_ok hc2]
    rfl

/-- C6 witness: `(date "x" )` and the truncated `(date "x" ` both
parse to the same result. -/
theorem parse_tag_optional_close_witness :
    parse_tag ("date".toList) parse_string ("(date \"x\" )".toList) = .ok ("x", []) ∧
    parse_tag ("date".toList) parse_string ("(date \"x\" ".toList) = .ok ("x", []) :=
  parse_tag_optional_close ("date".toList) parse_string
    ("(date \"x\" )".toList) ("(date \"x\" ".toList)
    ("\"x\" )".toList) ("\"x\" ".toList) "x" [' '] []
    (by rfl) (by rfl) (by rfl) (by rfl) (by decide)

/-- Textual tail (after the opening parenthesis) of a family of
cluster blocks with arbitrary nesting depth: `nestStr 0` is a leaf
cluster, `nestStr (n+1)` textually contains `nestStr n` as its only
child block. -/
def nestTail : Nat → List Char
  | 0 => "cluster 9 (nodes 3) (edges 4) )".toList
  | n + 1 => "cluster 8 (nodes 1) (edges 2) ".toList ++ ('(' :: (nestTail n ++ [' ', ')']))

/-- The full text of the depth-`n` nested cluster block. -/
def nestStr (n : Nat) : List Char := '(' :: nestTail n

/-- The cluster tree the parser is expected to build from
`nestStr n`. -/
def nestTree : Nat → Cluster
  | 0 => Cluster.mk 9 (NodesIds.mk (Ids.mk [IdsBloc.List (IdsList.mk [3])]))
      (EdgesIds.mk (Ids.mk [IdsBloc.List (IdsList.mk [4])])) []
  | n + 1 => Cluster.mk 8 (NodesIds.mk (Ids.mk [IdsBloc.List (IdsList.mk [1])]))
      (EdgesIds.mk (Ids.mk [IdsBloc.List (IdsList.mk [2])])) [nestTree n]

mutual

/-- Tree depth of a cluster: 1 for a leaf, one more than the deepest
child otherwise. -/
def clusterDepth : Cluster → Nat
  | .mk _ _ _ cs => 1 + clustersDepthMax cs

/-- Deepest cluster among a list of children, 0 when there are none. -/
def clustersDepthMax : List Cluster → Nat
  | [] => 0
  | c :: cs => Nat.max (clusterDepth c) (clustersDepthMax cs)

end

/-- Monad associativity of the embedding, used to normalize nested
sequencing before stepping through it. -/
theorem Pbind_assoc (p : P α) (g : α → P β) (k : β → P γ) :
    P.bind (P.bind p g) k = P.bind p (fun v => P.bind (g v) k) := by
  funext s
  unfold P.bind
  cases p s with
  | error e => rfl
  | ok vt => rfl

theorem Pbind_pure_left (a : α) (k : α → P β) : P.bind (P.pure a) k = k a := by
  funext s
  rfl

/-- A repeat iteration whose element fails ends the loop. -/
theorem manyAux_zeroiter {α : Type} {p : P α} {s : List Char} {e : PErr}
    (h : p s = .error e) (F : Nat) (acc : List α) :
    manyAux p (F + 1) acc s = .ok (acc.reverse, s) := by
  simp only [manyAux]
  rw [h]

/-- A repeat iteration whose element succeeds and consumes input
continues the loop. -/
theorem manyAux_oneiter {α : Type} {p : P α} {s : List Char} {v : α} {t : List Char}
    (h : p s = .ok (v, t)) (hne : ¬ t.length = s.length) (F : Nat) (acc : List α) :
    manyAux p (F + 1) acc s = manyAux p F (v :: acc) t := by
  simp only [manyAux]
  rw [h]
  simp only [if_neg hne]

/-- The cluster parser fails immediately on any input that does not
start with an opening parenthesis, no matter the fuel. -/
theorem clusterFuel_fail_nonparen (f : Nat) (c : Char) (t : List Char)
    (hc : (c == '(') = false) : ∃ e, clusterFuel f (c :: t) = .error e := by
  cases f with
  | zero => exact ⟨["fuel"], rfl⟩
  | succ f' =>
    refine ⟨[], ?_⟩
    show clusterFuel (f' + 1) (c :: t) = .error []
    simp only [clusterFuel]
    unfold parse_tag
    simp only [Pbind_eq]
    apply runBind_err
    unfold tagOpen
    simp only [Pbind_eq]
    apply runBind_err
    unfold pchar
    simp [hc]

/-- Parsing the depth-`n` nested cluster text yields exactly the
depth-`n` tree, leaving any trailing input untouched, for every
sufficient fuel value (one unit per nesting level). -/
theorem clusterFuel_nest : ∀ (n f : Nat) (ext : List Char), n < f →
    clusterFuel f (nestStr n ++ ext) = .ok (nestTree n, ext) := by
  intro n
  induction n with
  | zero =>
    intro f ext hf
    obtain ⟨f', rfl⟩ : ∃ f', f = f' + 1 := ⟨f - 1, by omega⟩
    show clusterFuel (f' + 1)
      ('(' :: ("cluster 9 (nodes 3) (edges 4) )".toList ++ ext)) = .ok (nestTree 0, ext)
    simp only [clusterFuel]
    unfold parse_tag
    simp only [Pbind_eq, Ppure_eq, Pbind_assoc, Pbind_pure_left]
    rw [runBind_ok (show tagOpen ("cluster".toList)
      ('(' :: ("cluster 9 (nodes 3) (edges 4) )".toList ++ ext)) =
      .ok ((), "9 (nodes 3) (edges 4) )".toList ++ ext) from rfl)]
    rw [runBind_ok (show pterminated dec_uint multispace1
      ("9 (nodes 3) (edges 4) )".toList ++ ext) =
      .ok (9, "(nodes 3) (edges 4) )".toList ++ ext) from rfl)]
    rw [runBind_ok (show pterminated nodes_ids multispace1
      ("(nodes 3) (edges 4) )".toList ++ ext) =
      .ok (NodesIds.mk (Ids.mk [IdsBloc.List (IdsList.mk [3])]),
        "(edges 4) )".toList ++ ext) from rfl)]
    rw [runBind_ok (show pterminated edges_ids multispace0
      ("(edges 4) )".toList ++ ext) =
      .ok (EdgesIds.mk (Ids.mk [IdsBloc.List (IdsList.mk [4])]),
        ')' :: ext) from rfl)]
    have hch : many0 (clusterFuel f') (')' :: ext) = .ok ([], ')' :: ext) := by
      unfold many0
      obtain ⟨e, he⟩ := clusterFuel_fail_nonparen f' ')' ext (by decide)
      exact manyAux_zeroiter he _ _
    rw [runBind_ok hch]
    rw [runBind_ok (show multispace0 (')' :: ext) = .ok ([], ')' :: ext) from rfl)]
    rw [runBind_ok (show tagClose (')' :: ext) = .ok ((), ext) from rfl)]
    rfl
  | succ n ih =>
    intro f ext hf
    obtain ⟨f', rfl⟩ : ∃ f', f = f' + 1 := ⟨f - 1, by omega⟩
    have hshape : nestStr (n + 1) ++ ext =
        '(' :: ("cluster 8 (nodes 1) (edges 2) ".toList ++
          ('(' :: (nestTail n ++ (' ' :: ')' :: ext)))) := by
      simp [nestStr, nestTail, List.append_assoc]
    rw [hshape]
    simp only [clusterFuel]
    unfold parse_tag
    simp only [Pbind_eq, Ppure_eq, Pbind_assoc, Pbind_pure_left]
    rw [runBind_ok (show tagOpen ("cluster".toList)
      ('(' :: ("cluster 8 (nodes 1) (edges 2) ".toList ++
        ('(' :: (nestTail n ++ (' ' :: ')' :: ext))))) =
      .ok ((), "8 (nodes 1) (edges 2) ".toList ++
        ('(' :: (nestTail n ++ (' ' :: ')' :: ext)))) from rfl)]
    rw [runBind_ok (show pterminated dec_uint multispace1
      ("8 (nodes 1) (edges 2) ".toList ++ ('(' :: (nestTail n ++ (' ' :: ')' :: ext)))) =
      .ok (8, "(nodes 1) (edges 2) ".toList ++
        ('(' :: (nestTail n ++ (' ' :: ')' :: ext)))) from rfl)]
    rw [runBind_ok (show pterminated nodes_ids multispace1
      ("(nodes 1) (edges 2) ".toList ++ ('(' :: (nestTail n ++ (' ' :: ')' :: ext)))) =
      .ok (NodesIds.mk (Ids.mk [IdsBloc.List (IdsList.mk [1])]),
        "(edges 2) ".toList ++ ('(' :: (nestTail n ++ (' ' :: ')' :: ext)))) from rfl)]
    rw [runBind_ok (show pterminated edges_ids multispace0
      ("(edges 2) ".toList ++ ('(' :: (nestTail n ++ (' ' :: ')' :: ext)))) =
      .ok (EdgesIds.mk (Ids.mk [IdsBloc.List (IdsList.mk [2])]),
        '(' :: (nestTail n ++ (' ' :: ')' :: ext))) from rfl)]
    have hch : many0 (clusterFuel f') ('(' :: (nestTail n ++ (' ' :: ')' :: ext))) =
        .ok ([nestTree n], ' ' :: ')' :: ext) := by
      unfold many0
      have hin : ('(' :: (nestTail n ++ (' ' :: ')' :: ext))) =
          nestStr n ++ (' ' :: ')' :: ext) := by
        simp [nestStr]
      rw [hin]
      rw [manyAux_oneiter (ih f' (' ' :: ')' :: ext) (by omega))
        (by simp [nestStr, List.length_append]; omega) _ []]
      obtain ⟨F2, hF2⟩ : ∃ F2, (nestStr n ++ (' ' :: ')' :: ext)).length = F2 + 1 :=
        ⟨(nestTail n).length + (ext.length + 2), by
          simp [nestStr, List.length_append]⟩
      rw [hF2]
      obtain ⟨e, he⟩ := clusterFuel_fail_nonparen f' ' ' (')' :: ext) (by decide)
      rw [manyAux_zeroiter he F2 [nestTree n]]
      rfl
    rw [runBind_ok hch]
    rw [runBind_ok (show multispace0 (' ' :: ')' :: ext) = .ok ([' '], ')' :: ext) from rfl)]
    rw [runBind_ok (show tagClose (')' :: ext) = .ok ((), ext) from rfl)]
    rfl

/-- Each nesting level adds text, so the default fuel
`input.length + 1` always covers the nesting depth. -/
theorem nestStr_length_gt (n : Nat) : n < (nestStr n).length := by
  induction n with
  | zero => decide
  | succ n ih =>
    simp only [nestStr, nestTail, List.length_cons, List.length_append] at ih ⊢
    omega

/-- C7: the cluster parser builds a tree whose depth equals the
textual nesting depth exactly: the spec example
`(cluster 7 (nodes 2002..37313) (edges 0..70708) )` parses to a single
cluster with id 7, range-form node and edge sets and no children; and
for every `n`, the block `nestStr n` with `n` nested cluster blocks
inside parses to the tree `nestTree n` of depth exactly `n + 1` — each
additional textual nesting level adds exactly one tree level. -/
theorem cluster_nesting_depth :
    cluster ("(cluster 7 (nodes 2002..37313) (edges 0..70708) )".toList) =
      .ok (Cluster.mk 7
        (NodesIds.mk (Ids.mk [IdsBloc.Range (IdsRange.mk 2002 37313)]))
        (EdgesIds.mk (Ids.mk [IdsBloc.Range (IdsRange.mk 0 70708)])) [], []) ∧
    (∀ n ext, cluster (nestStr n ++ ext) = .ok (nestTree n, ext)) ∧
    (∀ n, clusterDepth (nestTree n) = n + 1) := by
  refine ⟨rfl, fun n ext => ?_, fun n => ?_⟩
  · show clusterFuel ((nestStr n ++ ext).length + 1) (nestStr n ++ ext) = _
    apply clusterFuel_nest
    have h := nestStr_length_gt n
    simp only [List.length_append]
    omega
  · induction n with
    | zero => rfl
    | succ n ih =>
      simp only [nestTree, clusterDepth, clustersDepthMax, ih, Nat.max_zero]
      omega
